import Mathlib

/-!
Verification of the bypass/delay-line subsystem of the PluginBase repository
(`jb_plugin_base/DSP/DelayLine.h` and
`jb_plugin_base/Processor/PluginAudioProcessorBase.h`).

Samples are modelled as exact rationals; buffers and blocks as lists.
The delay line's per-channel cursor is a C++ `int`, modelled as `Int`.
-/

namespace JB

/-- Audio samples (`float` in the source) are modelled as exact rationals. -/
abbrev Sample := Rat

/-- State of `jb::MultichannelDelayLine<SampleType>`: the `memory` audio
buffer (one row of `length` samples per channel), the per-channel write
cursors `indices` (a `std::vector<int>` in the source, hence `Int` here),
and the constructor arguments `length` and `numChannels`. -/
structure MultichannelDelayLine where
  memory : List (List Sample)
  indices : List Int
  length : Nat
  numChannels : Nat
deriving Repr, DecidableEq

namespace MultichannelDelayLine

/-- The constructor `MultichannelDelayLine (int numSamples, int nChannels)`:
allocates `nChannels` rows of `numSamples` samples, clears the memory and
zeroes every cursor. -/
def init (numSamples nChannels : Nat) : MultichannelDelayLine :=
  { memory := List.replicate nChannels (List.replicate numSamples 0)
    indices := List.replicate nChannels 0
    length := numSamples
    numChannels := nChannels }

/-- `push (SampleType valueToPush, int channel)`: writes `valueToPush` at the
channel's cursor, then does `--idx; if (idx < 0) idx = 0;`. -/
def push (d : MultichannelDelayLine) (valueToPush : Sample) (channel : Nat) :
    MultichannelDelayLine :=
  let idx := d.indices.getD channel 0
  let row := d.memory.getD channel []
  let memory1 := d.memory.set channel (row.set idx.toNat valueToPush)
  let idx1 := idx - 1
  let idx2 := if idx1 < 0 then 0 else idx1
  { d with memory := memory1, indices := d.indices.set channel idx2 }

/-- `back (int channel)`: returns `memoryPtr[c][indices[c]]`. -/
def back (d : MultichannelDelayLine) (channel : Nat) : Sample :=
  (d.memory.getD channel []).getD (d.indices.getD channel 0).toNat 0

/-- `reset ()`: zeroes every cursor and clears the memory buffer. -/
def reset (d : MultichannelDelayLine) : MultichannelDelayLine :=
  { d with
    indices := List.replicate d.indices.length 0
    memory := d.memory.map (fun row => List.replicate row.length 0) }

/-- `processBuffer (src, dest, bufferLength, channel)`: for each sample in
order, `dest[sample] = back (channel); push (src[sample], channel);`.
Returns the written `dest` buffer together with the delay line's new state
(the source's no-aliasing precondition `src != dest` is inherent in this
functional reading). -/
def processBuffer (d : MultichannelDelayLine) (src : List Sample)
    (channel : Nat) : List Sample × MultichannelDelayLine :=
  match src with
  | [] => ([], d)
  | s :: rest =>
    let out := d.back channel
    let d1 := d.push s channel
    let r := d1.processBuffer rest channel
    (out :: r.1, r.2)

/-- Helper for `processBlock`: runs `processBuffer` on channels
`channel, channel+1, …` while `remaining` channels are left. -/
def processBlockGo (d : MultichannelDelayLine) (srcBlock : List (List Sample))
    (channel remaining : Nat) : List (List Sample) × MultichannelDelayLine :=
  match remaining with
  | 0 => ([], d)
  | n + 1 =>
    let r := d.processBuffer (srcBlock.getD channel []) channel
    let rs := processBlockGo r.2 srcBlock (channel + 1) n
    (r.1 :: rs.1, rs.2)

/-- `processBlock (srcBlock, destBlock)`: calls `processBuffer` for every
channel `0 ≤ channel < numChannels`. Returns the destination block and the
delay line's new state. -/
def processBlock (d : MultichannelDelayLine) (srcBlock : List (List Sample)) :
    List (List Sample) × MultichannelDelayLine :=
  processBlockGo d srcBlock 0 d.numChannels

/-- Replays a list of pushes `(value, channel)` in order. -/
def replay (d : MultichannelDelayLine) (h : List (Sample × Nat)) :
    MultichannelDelayLine :=
  match h with
  | [] => d
  | p :: t => replay (d.push p.1 p.2) t

/-- Pushes the samples of `src` into one channel, in order. -/
def pushMany (d : MultichannelDelayLine) (src : List Sample) (channel : Nat) :
    MultichannelDelayLine :=
  match src with
  | [] => d
  | s :: rest => (d.push s channel).pushMany rest channel

/-- The values `back channel` returns when read directly after each push of
the given sample list into `channel`. -/
def backAfterEachPush (d : MultichannelDelayLine) (channel : Nat) :
    List Sample → List Sample
  | [] => []
  | v :: rest =>
    let d1 := d.push v channel
    d1.back channel :: d1.backAfterEachPush channel rest

end MultichannelDelayLine

/-- An audio block (`juce::AudioBuffer<float>` / `juce::dsp::AudioBlock<float>`):
one list of samples per channel. -/
abbrev Block := List (List Sample)

/-- `buffer.getNumSamples()`: the number of samples per channel. -/
def blockNumSamples (b : Block) : Nat := (b.getD 0 []).length

/-- One channel of `juce::AudioBuffer::applyGainRamp (0, numSamples, g1, g2)`:
JUCE multiplies each of the first `numSamples` samples by a gain that starts
at the start gain and grows by `inc` per sample; samples past the region are
left untouched. -/
def applyGainRampRow : List Sample → Nat → Sample → Sample → List Sample
  | row, 0, _, _ => row
  | [], _ + 1, _, _ => []
  | v :: rest, n + 1, gain, inc => v * gain :: applyGainRampRow rest n (gain + inc) inc

/-- `juce::AudioBuffer::applyGainRamp (0, numSamples, startGain, endGain)` on
every channel, with JUCE's per-sample increment `(endGain - startGain) / numSamples`. -/
def applyGainRamp (b : Block) (numSamples : Nat) (startGain endGain : Sample) :
    Block :=
  let inc := (endGain - startGain) / (numSamples : Sample)
  b.map (fun row => applyGainRampRow row numSamples startGain inc)

/-- `juce::dsp::AudioBlock::add`: element-wise sum of two equally sized blocks. -/
def addBlocks (x y : Block) : Block := List.zipWith (List.zipWith (· + ·)) x y

namespace PluginAudioProcessorBase

/-- The private member `int bypassRampLen = 128;`, never reassigned. -/
def bypassRampLen : Nat := 128

/-- The bypass-related state of `PluginAudioProcessorBase`: the optional
delay line and the `lastBlockWasBypassed` flag (uninitialized at
construction, so any initial value of the field models a possible run). -/
structure State where
  delayLine : Option MultichannelDelayLine
  lastBlockWasBypassed : Bool
deriving Repr, DecidableEq

/-- Lines 203–212 of `processWithBypassFade`: fill the bypass (dry) block.
With no delay line it is a verbatim copy of the input; otherwise the delay
line — reset first when fading into bypass — processes the input into it. -/
def bypassDryBlock (fadeIntoBypass : Bool)
    (dl : Option MultichannelDelayLine) (buffer : Block) :
    Block × Option MultichannelDelayLine :=
  match dl with
  | none => (buffer, none)
  | some d =>
    let d0 := if fadeIntoBypass then d.reset else d
    let r := d0.processBlock buffer
    (r.1, some r.2)

/-- `processWithBypassFade<fadeIntoBypass> (buffer)`: fills the dry block,
runs the virtual wet `processBlock` on the buffer, applies opposite linear
gain ramps of length `min (numSamples, bypassRampLen)` to the wet buffer and
the dry block, and sums them. The wet processing is a function parameter
(it is a pure virtual in the source). -/
def processWithBypassFade (fadeIntoBypass : Bool) (wet : Block → Block)
    (st : State) (buffer : Block) : Block × State :=
  let dry := bypassDryBlock fadeIntoBypass st.delayLine buffer
  let wetBuf := wet buffer
  let rampLength := min (blockNumSamples buffer) bypassRampLen
  let a : Sample := if fadeIntoBypass then 1 else 0
  let b : Sample := if fadeIntoBypass then 0 else 1
  (addBlocks (applyGainRamp wetBuf rampLength a b)
             (applyGainRamp dry.1 rampLength b a),
   { st with delayLine := dry.2 })

/-- `processBlockBypassed (buffer, midi)`: on a wet→bypass transition fades
into bypass and latches `lastBlockWasBypassed`; in steady-state bypass it
feeds the buffer through the delay line (when one exists) and copies the
delayed block back, or leaves the buffer untouched when there is none. -/
def processBlockBypassed (wet : Block → Block) (st : State) (buffer : Block) :
    Block × State :=
  if !st.lastBlockWasBypassed then
    let r := processWithBypassFade true wet st buffer
    (r.1, { r.2 with lastBlockWasBypassed := true })
  else
    match st.delayLine with
    | some d =>
      let r := d.processBlock buffer
      (r.1, { st with delayLine := some r.2 })
    | none => (buffer, st)

/-- The private override `processBlock (buffer, midiBuffer)`: dispatches on
the bypass parameter (`getValue() > 0.5f`, modelled by `bypassOn`), fading
out of bypass when the previous block was bypassed. -/
def processBlock (bypassOn : Bool) (wet : Block → Block) (st : State)
    (buffer : Block) : Block × State :=
  if bypassOn then
    processBlockBypassed wet st buffer
  else if st.lastBlockWasBypassed then
    let r := processWithBypassFade false wet st buffer
    (r.1, { r.2 with lastBlockWasBypassed := false })
  else
    (wet buffer, st)

/-- `prepareBypassDelayLine ()`: allocates a fresh delay line of depth
`getLatencySamples()` when that is non-zero, and frees it otherwise.
The latency reported to JUCE is a sample count, modelled as `Nat`. -/
def prepareBypassDelayLine (latencySamples numChans : Nat) (st : State) :
    State :=
  if latencySamples ≠ 0 then
    { st with delayLine := some (MultichannelDelayLine.init latencySamples numChans) }
  else
    { st with delayLine := none }

/-- Runs `processBlock` over a sequence of blocks, each with its bypass-flag
value, collecting the output blocks. -/
def runBlocks (wet : Block → Block) (st : State) :
    List (Bool × Block) → List Block
  | [] => []
  | p :: rest =>
    let r := processBlock p.1 wet st p.2
    r.1 :: runBlocks wet r.2 rest

end PluginAudioProcessorBase

/-! ### Generic list lemmas used throughout -/

theorem getD_set_of_ne {α : Type} (l : List α) (i j : Nat) (a d : α)
    (h : i ≠ j) : (l.set i a).getD j d = l.getD j d := by
  induction l generalizing i j with
  | nil => rfl
  | cons x xs ih =>
    cases i with
    | zero => cases j with
      | zero => exact absurd rfl h
      | succ j => rfl
    | succ i => cases j with
      | zero => rfl
      | succ j => exact ih i j (fun hij => h (by omega))

theorem getD_set_self {α : Type} (l : List α) (i : Nat) (a d : α) :
    (l.set i a).getD i d = if i < l.length then a else d := by
  induction l generalizing i with
  | nil => simp [List.getD]
  | cons x xs ih =>
    cases i with
    | zero => simp [List.getD]
    | succ i =>
      simp only [List.set, List.length_cons]
      rw [show ((x :: xs.set i a).getD (i + 1) d) = (xs.set i a).getD i d from rfl,
        ih i]
      simp [Nat.succ_lt_succ_iff]

theorem getD_replicate {α : Type} (n i : Nat) (x d : α) :
    (List.replicate n x).getD i d = if i < n then x else d := by
  induction n generalizing i with
  | zero => simp [List.getD]
  | succ n ih =>
    cases i with
    | zero => simp [List.replicate, List.getD]
    | succ i =>
      rw [List.replicate, show ((x :: List.replicate n x).getD (i + 1) d)
          = (List.replicate n x).getD i d from rfl, ih i]
      simp [Nat.succ_lt_succ_iff]

theorem length_set_eq {α : Type} (l : List α) (i : Nat) (a : α) :
    (l.set i a).length = l.length := by simp

theorem applyGainRampRow_length : ∀ (row : List Sample) (n : Nat) (g i : Sample),
    (applyGainRampRow row n g i).length = row.length := by
  intro row
  induction row with
  | nil => intro n g i; cases n <;> rfl
  | cons v rest ih =>
    intro n g i
    cases n with
    | zero => rfl
    | succ n => simp [applyGainRampRow, ih]

theorem applyGainRampRow_getD_of_ge : ∀ (row : List Sample) (n : Nat)
    (g i : Sample) (k : Nat) (d : Sample), n ≤ k →
    (applyGainRampRow row n g i).getD k d = row.getD k d := by
  intro row
  induction row with
  | nil => intro n g i k d _; cases n <;> rfl
  | cons v rest ih =>
    intro n g i k d hk
    cases n with
    | zero => rfl
    | succ n =>
      cases k with
      | zero => omega
      | succ k =>
        show (applyGainRampRow rest n (g + i) i).getD k d = rest.getD k d
        exact ih n (g + i) i k d (by omega)

theorem zipWith_add_getD : ∀ (xs ys : List Sample) (k : Nat),
    k < xs.length → k < ys.length →
    (List.zipWith (· + ·) xs ys).getD k 0 = xs.getD k 0 + ys.getD k 0 := by
  intro xs
  induction xs with
  | nil => intro ys k h _; simp at h
  | cons x xt ih =>
    intro ys k h1 h2
    cases ys with
    | nil => simp at h2
    | cons y yt =>
      cases k with
      | zero => rfl
      | succ k =>
        show (List.zipWith (· + ·) xt yt).getD k 0 = xt.getD k 0 + yt.getD k 0
        exact ih yt k (by simpa using h1) (by simpa using h2)

theorem applyGainRamp_cons (row : List Sample) (rest : Block) (n : Nat)
    (g1 g2 : Sample) : applyGainRamp (row :: rest) n g1 g2
      = applyGainRampRow row n g1 ((g2 - g1) / (n : Sample))
        :: applyGainRamp rest n g1 g2 := rfl

open MultichannelDelayLine PluginAudioProcessorBase

/-! ### Claim theorems -/

/-- Claim C1, evaluation of the code at the claimed scenario: a delay line of
capacity 4 on one channel, fed the push sequence [1,2,3,4,5,6] with `back`
read after each push, returns [1,2,3,4,5,6] — each read yields the sample
just pushed, not the claimed N-sample-delayed sequence [0,0,0,0,1,2]. The
cursor clamp `if (idx < 0) idx = 0;` keeps the cursor at slot 0 forever, so
the code contradicts its own documentation (`back` "returns the oldest
sample in the delay line"). -/
theorem delayLine_back_has_zero_delay :
    backAfterEachPush (init 4 1) 0 [1, 2, 3, 4, 5, 6] = [1, 2, 3, 4, 5, 6] ∧
    backAfterEachPush (init 4 1) 0 [1, 2, 3, 4, 5, 6] ≠ [0, 0, 0, 0, 1, 2] := by
  decide

/-- Claim C3, evaluation of the code at a two-push scenario on capacity 2:
after the first push the cursor is still 0 (not wrapped to N−1 = 1), and the
second push overwrites slot 0 again, leaving memory [9, 0] — slot 1 is never
written, so 2 consecutive pushes visit 1 slot, not 2 distinct slots as the
claim's wrap rule requires. -/
theorem push_cursor_clamps_at_zero :
    (((init 2 1).push 7 0).indices.getD 0 0 = 0) ∧
    ((((init 2 1).push 7 0).push 9 0).memory = [[9, 0]]) := by
  decide

/-- Claim C2, evaluation of the code at a wet-to-bypass transition block of
length 129 (> bypassRampLen = 128), no delay line (zero latency, dry = input)
and identity wet processing, all samples 1: `applyGainRamp` leaves samples at
index ≥ 128 untouched in BOTH buffers, so the summed output at index 128 is
wet + dry = 2, while the pure dry signal there is 1 — the tail is not in the
target state. -/
theorem bypassFade_tail_is_wet_plus_dry :
    (((processWithBypassFade true id ⟨none, false⟩
        [List.replicate 129 1]).1.getD 0 []).getD 128 0 = 2) ∧
    ((List.replicate 129 (1 : Sample)).getD 128 0 = 1) := by
  constructor
  · have hmin : min (blockNumSamples [List.replicate 129 (1 : Sample)])
        bypassRampLen = 128 := by
      simp [blockNumSamples, bypassRampLen]
    show ((addBlocks
        (applyGainRamp [List.replicate 129 1]
          (min (blockNumSamples [List.replicate 129 1]) bypassRampLen) 1 0)
        (applyGainRamp [List.replicate 129 1]
          (min (blockNumSamples [List.replicate 129 1]) bypassRampLen) 0 1)).getD
        0 []).getD 128 0 = 2
    rw [hmin, applyGainRamp_cons, applyGainRamp_cons]
    show (List.zipWith (· + ·)
        (applyGainRampRow (List.replicate 129 1) 128 1 ((0 - 1) / (128 : Sample)))
        (applyGainRampRow (List.replicate 129 1) 128 0
          ((1 - 0) / (128 : Sample)))).getD 128 0 = 2
    rw [zipWith_add_getD _ _ 128 (by simp [applyGainRampRow_length])
          (by simp [applyGainRampRow_length]),
        applyGainRampRow_getD_of_ge _ 128 _ _ 128 0 (le_refl 128),
        applyGainRampRow_getD_of_ge _ 128 _ _ 128 0 (le_refl 128),
        getD_replicate]
    norm_num
  · rw [getD_replicate]
    norm_num

/-- Claim C9, evaluation of the code at the first block after construction:
`lastBlockWasBypassed` is declared without an initializer and is read before
it is ever written, so the first block's output depends on its indeterminate
value. With the bypass parameter off, input block [[1]] and a wet processing
that doubles the signal, a run whose indeterminate flag is `true` outputs
[[1]] (a bypass fade is inserted) while a run whose flag is `false` outputs
[[2]] — two runs from construction are not identical. -/
theorem firstBlock_depends_on_uninitialized_flag :
    runBlocks (fun b => b.map (List.map (fun s => 2 * s))) ⟨none, true⟩
        [(false, [[1]])] ≠
    runBlocks (fun b => b.map (List.map (fun s => 2 * s))) ⟨none, false⟩
        [(false, [[1]])] := by
  simp [runBlocks, PluginAudioProcessorBase.processBlock, processBlockBypassed,
    processWithBypassFade, bypassDryBlock, blockNumSamples, bypassRampLen,
    applyGainRamp, applyGainRampRow, addBlocks]

theorem getD_eq_default_of_le {α : Type} : ∀ (l : List α) (n : Nat) (d : α),
    l.length ≤ n → l.getD n d = d := by
  intro l
  induction l with
  | nil => intro n d _; cases n <;> rfl
  | cons x xs ih =>
    intro n d h
    cases n with
    | zero => simp at h
    | succ n => exact ih n d (by simpa using h)

theorem push_indices_getD (d : MultichannelDelayLine) (v : Sample) (ch : Nat)
    (hz : ∀ c, d.indices.getD c 0 = 0) :
    ∀ c, (d.push v ch).indices.getD c 0 = 0 := by
  intro c
  have h0 : (d.push v ch).indices = d.indices.set ch 0 := by
    show d.indices.set ch (if d.indices.getD ch 0 - 1 < 0 then 0
        else d.indices.getD ch 0 - 1) = d.indices.set ch 0
    rw [hz ch]
    norm_num
  rw [h0]
  by_cases hc : ch = c
  · subst hc
    rw [getD_set_self]
    split <;> rfl
  · rw [getD_set_of_ne _ _ _ _ _ hc]
    exact hz c

theorem push_memory_length (d : MultichannelDelayLine) (v : Sample) (ch : Nat) :
    (d.push v ch).memory.length = d.memory.length := by
  show (d.memory.set ch _).length = d.memory.length
  simp

theorem push_row_length (d : MultichannelDelayLine) (v : Sample) (ch c : Nat) :
    ((d.push v ch).memory.getD c []).length = (d.memory.getD c []).length := by
  show ((d.memory.set ch ((d.memory.getD ch []).set
      (d.indices.getD ch 0).toNat v)).getD c []).length = _
  by_cases hc : ch = c
  · subst hc
    rw [getD_set_self]
    by_cases hlt : ch < d.memory.length
    · rw [if_pos hlt]
      simp
    · rw [if_neg hlt]
      rw [getD_eq_default_of_le d.memory ch [] (by omega)]
  · rw [getD_set_of_ne _ _ _ _ _ hc]

theorem push_back_same (d : MultichannelDelayLine) (v : Sample) (ch : Nat)
    (hz : ∀ c, d.indices.getD c 0 = 0) (hlen : ch < d.memory.length)
    (hrow : 0 < (d.memory.getD ch []).length) :
    (d.push v ch).back ch = v := by
  show ((d.push v ch).memory.getD ch []).getD
      ((d.push v ch).indices.getD ch 0).toNat 0 = v
  rw [push_indices_getD d v ch hz ch]
  have hm : (d.push v ch).memory.getD ch [] = (d.memory.getD ch []).set 0 v := by
    show (d.memory.set ch ((d.memory.getD ch []).set
        (d.indices.getD ch 0).toNat v)).getD ch [] = _
    rw [hz ch]
    rw [getD_set_self, if_pos hlen]
    rfl
  rw [hm]
  show ((d.memory.getD ch []).set 0 v).getD 0 0 = v
  rw [getD_set_self, if_pos hrow]

theorem push_back_other (d : MultichannelDelayLine) (v : Sample) (ch c : Nat)
    (h : ch ≠ c) : (d.push v ch).back c = d.back c := by
  show ((d.push v ch).memory.getD c []).getD
      ((d.push v ch).indices.getD c 0).toNat 0 = d.back c
  have h1 : (d.push v ch).memory.getD c [] = d.memory.getD c [] := by
    show (d.memory.set ch _).getD c [] = _
    rw [getD_set_of_ne _ _ _ _ _ h]
  have h2 : (d.push v ch).indices.getD c 0 = d.indices.getD c 0 := by
    show (d.indices.set ch _).getD c 0 = _
    rw [getD_set_of_ne _ _ _ _ _ h]
  rw [h1, h2]
  rfl

theorem replay_back (c : Nat) : ∀ (hist : List (Sample × Nat))
    (d : MultichannelDelayLine),
    (∀ c', d.indices.getD c' 0 = 0) → c < d.memory.length →
    0 < (d.memory.getD c []).length →
    ((∀ c', (replay d hist).indices.getD c' 0 = 0) ∧
     (replay d hist).back c
       = hist.foldl (fun acc p => if p.2 = c then p.1 else acc) (d.back c)) := by
  intro hist
  induction hist with
  | nil => intro d hz _ _; exact ⟨hz, rfl⟩
  | cons p t ih =>
    intro d hz hc hr
    have hz' := push_indices_getD d p.1 p.2 hz
    have hc' : c < (d.push p.1 p.2).memory.length := by
      rw [push_memory_length]; exact hc
    have hr' : 0 < ((d.push p.1 p.2).memory.getD c []).length := by
      rw [push_row_length]; exact hr
    have hih := ih (d.push p.1 p.2) hz' hc' hr'
    refine ⟨hih.1, ?_⟩
    show (replay (d.push p.1 p.2) t).back c = List.foldl _ _ (p :: t)
    rw [List.foldl_cons, hih.2]
    congr 1
    by_cases hp : p.2 = c
    · rw [if_pos hp]
      subst hp
      exact push_back_same d p.1 p.2 hz hc hr
    · rw [if_neg hp]
      exact push_back_other d p.1 p.2 c hp

/-- Claim C4: invariant of the implemented delay line. For every capacity
N ≥ 1 and every channel c of the line, after any sequence of pushes the
channel's cursor equals 0 (push decrements the cursor and clamps a negative
result back to 0), and consequently `back c` returns the most recently
pushed sample on channel c — or the initial zero before any push —
regardless of N. -/
theorem delayLine_cursor_zero_back_newest (N ch c : Nat)
    (hist : List (Sample × Nat)) (hN : 1 ≤ N) (hc : c < ch) :
    ((replay (init N ch) hist).indices.getD c 0 = 0) ∧
    (replay (init N ch) hist).back c
      = hist.foldl (fun acc p => if p.2 = c then p.1 else acc) 0 := by
  have hz : ∀ c', (init N ch).indices.getD c' 0 = 0 := by
    intro c'
    show (List.replicate ch (0 : Int)).getD c' 0 = 0
    rw [getD_replicate]
    split <;> rfl
  have hcm : c < (init N ch).memory.length := by
    show c < (List.replicate ch (List.replicate N (0 : Sample))).length
    simpa using hc
  have hrow : 0 < ((init N ch).memory.getD c []).length := by
    show 0 < ((List.replicate ch (List.replicate N (0 : Sample))).getD c []).length
    rw [getD_replicate, if_pos hc]
    simpa using hN
  have h := replay_back c hist (init N ch) hz hcm hrow
  refine ⟨h.1 c, ?_⟩
  rw [h.2]
  congr 1
  show ((init N ch).memory.getD c []).getD ((init N ch).indices.getD c 0).toNat 0 = 0
  rw [hz c]
  show ((List.replicate ch (List.replicate N (0 : Sample))).getD c []).getD 0 0 = 0
  rw [getD_replicate, if_pos hc, getD_replicate]
  split <;> rfl

/-- Witness for C4: capacity 4, 2 channels, pushes 3 and 7 into channel 0
and 5 into channel 1; channel 0's cursor is 0 and `back 0` returns 7, the
most recently pushed channel-0 sample. -/
theorem delayLine_cursor_zero_back_newest_witness :
    (1 ≤ 4 ∧ 0 < 2) ∧
    (((replay (init 4 2) [(3, 0), (5, 1), (7, 0)]).indices.getD 0 0 = 0) ∧
     (replay (init 4 2) [(3, 0), (5, 1), (7, 0)]).back 0
       = [(3, 0), (5, 1), (7, 0)].foldl
           (fun acc p => if p.2 = 0 then p.1 else acc) 0) ∧
    (replay (init 4 2) [(3, 0), (5, 1), (7, 0)]).back 0 = 7 :=
  ⟨⟨by norm_num, by norm_num⟩,
   delayLine_cursor_zero_back_newest 4 2 0 [(3, 0), (5, 1), (7, 0)]
     (by norm_num) (by norm_num),
   by decide⟩

/-- Claim C7: `processBuffer (src, dst, length, channel)` reads `back` into
`dst[i]` strictly before pushing `src[i]`: for every `i < length`, `dst[i]`
equals the value `back` yields on the delay-line state reached after pushing
exactly `src[0..i-1]` (the state immediately before `src[i]` is pushed), and
the final state is the one after all pushes. The non-aliasing of src and dst
is inherent in the functional model. -/
theorem processBuffer_reads_before_push : ∀ (src : List Sample)
    (d : MultichannelDelayLine) (c : Nat),
    ((d.processBuffer src c).2 = d.pushMany src c) ∧
    (∀ i, i < src.length →
      (d.processBuffer src c).1.getD i 0 = (d.pushMany (src.take i) c).back c) := by
  intro src
  induction src with
  | nil =>
    intro d c
    exact ⟨rfl, fun i hi => absurd hi (by simp)⟩
  | cons s rest ih =>
    intro d c
    constructor
    · show ((d.push s c).processBuffer rest c).2 = (d.push s c).pushMany rest c
      exact (ih (d.push s c) c).1
    · intro i hi
      cases i with
      | zero => rfl
      | succ i =>
        show ((d.push s c).processBuffer rest c).1.getD i 0
            = ((d.push s c).pushMany (rest.take i) c).back c
        exact (ih (d.push s c) c).2 i (by simpa using hi)

/-- Witness for C7: capacity 2, src [1,2,3]: dst[1] equals `back` of the
state after pushing only src[0]. -/
theorem processBuffer_witness_concrete :
    (1 < 3) ∧
    ((init 2 1).processBuffer [1, 2, 3] 0).1.getD 1 0
      = ((init 2 1).pushMany ([1, 2, 3].take 1) 0).back 0 ∧
    ((init 2 1).processBuffer [1, 2, 3] 0).2 = (init 2 1).pushMany [1, 2, 3] 0 :=
  ⟨by norm_num,
   (processBuffer_reads_before_push [1, 2, 3] (init 2 1) 0).2 1 (by norm_num),
   (processBuffer_reads_before_push [1, 2, 3] (init 2 1) 0).1⟩

theorem reset_reset (d : MultichannelDelayLine) : d.reset.reset = d.reset := by
  simp only [MultichannelDelayLine.reset, List.length_replicate, List.map_map]
  congr 1
  apply List.map_congr_left
  intro row _
  simp [Function.comp]

/-- Claim C5: on a wet-to-bypass transition block (`fadeIntoBypass = true`)
with a delay line present, the delay line is reset before the block's input
is fed through it: the output block and the resulting delay line do not
depend on the delay line's prior contents (any two delay lines with the same
reset state give identical results), and the resulting delay line is exactly
the zero-filled reset state fed with the transition block's input. -/
theorem bypassFade_reset_forgets_history (wet : Block → Block)
    (d1 d2 : MultichannelDelayLine) (f1 f2 : Bool) (buffer : Block)
    (h : d1.reset = d2.reset) :
    ((processWithBypassFade true wet ⟨some d1, f1⟩ buffer).1
       = (processWithBypassFade true wet ⟨some d2, f2⟩ buffer).1) ∧
    ((processWithBypassFade true wet ⟨some d1, f1⟩ buffer).2.delayLine
       = some (d1.reset.processBlock buffer).2) := by
  have hb : bypassDryBlock true (some d1) buffer
      = bypassDryBlock true (some d2) buffer := by
    simp only [bypassDryBlock, if_pos]
    rw [h]
  constructor
  · simp only [processWithBypassFade]
    rw [hb]
  · rfl

/-- Witness for C5: a delay line that already holds the sample 5 behaves,
across the transition, exactly like a fresh one. -/
theorem bypassFade_reset_forgets_history_witness :
    (((init 2 1).push 5 0).reset = (init 2 1).reset) ∧
    ((processWithBypassFade true id ⟨some ((init 2 1).push 5 0), false⟩ [[1, 2]]).1
       = (processWithBypassFade true id ⟨some (init 2 1), true⟩ [[1, 2]]).1) ∧
    ((processWithBypassFade true id ⟨some ((init 2 1).push 5 0), false⟩ [[1, 2]]).2.delayLine
       = some ((((init 2 1).push 5 0).reset.processBlock [[1, 2]]).2)) :=
  ⟨by decide,
   (bypassFade_reset_forgets_history id ((init 2 1).push 5 0) (init 2 1)
      false true [[1, 2]] (by decide)).1,
   (bypassFade_reset_forgets_history id ((init 2 1).push 5 0) (init 2 1)
      false true [[1, 2]] (by decide)).2⟩

/-- Claim C6: in steady-state bypass (`lastBlockWasBypassed` already true
and the bypass parameter still on): with a delay line, the block is
overwritten verbatim with the delay line's output (no wet processing, no
gain); with no delay line, the block and the whole state are left
completely unchanged. -/
theorem processBlockBypassed_steady (wet : Block → Block) (st : State)
    (buffer : Block) (h : st.lastBlockWasBypassed = true) :
    (∀ d, st.delayLine = some d →
      processBlockBypassed wet st buffer
        = ((d.processBlock buffer).1,
           { st with delayLine := some (d.processBlock buffer).2 })) ∧
    (st.delayLine = none → processBlockBypassed wet st buffer = (buffer, st)) := by
  constructor
  · intro d hd
    simp [processBlockBypassed, h, hd]
  · intro hd
    simp [processBlockBypassed, h, hd]

/-- Witness for C6: steady bypass with a capacity-2 delay line on [[1,2,3]]
outputs the delayed block [[0,1,2]]. -/
theorem processBlockBypassed_steady_witness :
    ((⟨some (init 2 1), true⟩ : State).lastBlockWasBypassed = true) ∧
    processBlockBypassed id ⟨some (init 2 1), true⟩ [[1, 2, 3]]
      = (((init 2 1).processBlock [[1, 2, 3]]).1,
         ⟨some (((init 2 1).processBlock [[1, 2, 3]]).2), true⟩) ∧
    ((init 2 1).processBlock [[1, 2, 3]]).1 = [[0, 1, 2]] :=
  ⟨rfl,
   (processBlockBypassed_steady id ⟨some (init 2 1), true⟩ [[1, 2, 3]] rfl).1
     (init 2 1) rfl,
   by decide⟩

/-- Claim C8: after `prepareBypassDelayLine` (run by `prepareToPlay` and by
`numChannelsChanged`), a delay line exists iff the reported latency is
positive; and when no delay line exists the dry signal of every bypass path
is the verbatim input: the fade path's dry block is a copy of the input and
steady-state bypass emits the input unchanged. -/
theorem delayLine_iff_latency_and_verbatim_dry :
    (∀ (lat ch : Nat) (st : State),
      ((prepareBypassDelayLine lat ch st).delayLine).isSome = true ↔ 0 < lat) ∧
    (∀ (fade : Bool) (buffer : Block),
      bypassDryBlock fade none buffer = (buffer, none)) ∧
    (∀ (wet : Block → Block) (st : State) (buffer : Block),
      st.delayLine = none → st.lastBlockWasBypassed = true →
      processBlockBypassed wet st buffer = (buffer, st)) := by
  refine ⟨?_, ?_, ?_⟩
  · intro lat ch st
    by_cases hl : lat = 0
    · subst hl
      simp [prepareBypassDelayLine]
    · simp [prepareBypassDelayLine, hl, Nat.pos_of_ne_zero hl]
  · intro fade buffer
    rfl
  · intro wet st buffer hd hb
    simp [processBlockBypassed, hb, hd]

/-- Witness for C8: latency 3 allocates a delay line, latency 0 frees it;
with no delay line the dry block and the steady bypass output are the
verbatim input [[4]]. -/
theorem delayLine_iff_latency_witness :
    (((prepareBypassDelayLine 3 2 ⟨none, false⟩).delayLine).isSome = true) ∧
    (((prepareBypassDelayLine 0 2 ⟨some (init 2 1), false⟩).delayLine).isSome = false) ∧
    bypassDryBlock true none [[4]] = ([[4]], none) ∧
    processBlockBypassed id ⟨none, true⟩ [[4]] = ([[4]], ⟨none, true⟩) :=
  ⟨(delayLine_iff_latency_and_verbatim_dry.1 3 2 ⟨none, false⟩).mpr (by norm_num),
   by decide,
   delayLine_iff_latency_and_verbatim_dry.2.1 true [[4]],
   delayLine_iff_latency_and_verbatim_dry.2.2 id ⟨none, true⟩ [[4]] rfl rfl⟩

/-- The part of the delay-line state that belongs to one channel: its memory
row and its cursor. -/
def channelView (d : MultichannelDelayLine) (c : Nat) : List Sample × Int :=
  (d.memory.getD c [], d.indices.getD c 0)

/-- The effect of one `push` on a single channel's view. -/
def chanPush (s : List Sample × Int) (v : Sample) : List Sample × Int :=
  (s.1.set s.2.toNat v, if s.2 - 1 < 0 then 0 else s.2 - 1)

theorem push_memory_getD_same (d : MultichannelDelayLine) (v : Sample) (c : Nat) :
    (d.push v c).memory.getD c []
      = (d.memory.getD c []).set (d.indices.getD c 0).toNat v := by
  show (d.memory.set c ((d.memory.getD c []).set (d.indices.getD c 0).toNat v)).getD c [] = _
  by_cases hc : c < d.memory.length
  · rw [getD_set_self, if_pos hc]
  · rw [getD_set_self, if_neg hc]
    rw [getD_eq_default_of_le d.memory c [] (by omega)]
    rfl

theorem push_indices_getD_same (d : MultichannelDelayLine) (v : Sample) (c : Nat) :
    (d.push v c).indices.getD c 0
      = (if d.indices.getD c 0 - 1 < 0 then 0 else d.indices.getD c 0 - 1) := by
  show (d.indices.set c (if d.indices.getD c 0 - 1 < 0 then 0
      else d.indices.getD c 0 - 1)).getD c 0 = _
  by_cases hc : c < d.indices.length
  · rw [getD_set_self, if_pos hc]
  · rw [getD_set_self, if_neg hc]
    rw [getD_eq_default_of_le d.indices c 0 (by omega)]
    norm_num

theorem channelView_push_same (d : MultichannelDelayLine) (v : Sample) (c : Nat) :
    channelView (d.push v c) c = chanPush (channelView d c) v := by
  unfold channelView chanPush
  refine Prod.ext ?_ ?_
  · exact push_memory_getD_same d v c
  · exact push_indices_getD_same d v c

theorem channelView_push_other (d : MultichannelDelayLine) (v : Sample)
    (ch c : Nat) (h : ch ≠ c) :
    channelView (d.push v ch) c = channelView d c := by
  unfold channelView
  refine Prod.ext ?_ ?_
  · show (d.memory.set ch _).getD c [] = _
    rw [getD_set_of_ne _ _ _ _ _ h]
  · show (d.indices.set ch _).getD c 0 = _
    rw [getD_set_of_ne _ _ _ _ _ h]

theorem channelView_replay (c : Nat) : ∀ (hist : List (Sample × Nat))
    (d : MultichannelDelayLine),
    channelView (replay d hist) c
      = ((hist.filter (fun p => p.2 == c)).map Prod.fst).foldl chanPush
          (channelView d c) := by
  intro hist
  induction hist with
  | nil => intro d; rfl
  | cons p t ih =>
    intro d
    show channelView (replay (d.push p.1 p.2) t) c = _
    rw [ih (d.push p.1 p.2)]
    by_cases hp : p.2 = c
    · have hf : (p :: t).filter (fun q => q.2 == c)
          = p :: t.filter (fun q => q.2 == c) := by
        simp [List.filter_cons, hp]
      rw [hf, List.map_cons, List.foldl_cons]
      subst hp
      rw [channelView_push_same]
    · have hf : (p :: t).filter (fun q => q.2 == c)
          = t.filter (fun q => q.2 == c) := by
        simp [List.filter_cons, hp]
      rw [hf, channelView_push_other _ _ _ _ hp]

theorem back_eq_channelView (d : MultichannelDelayLine) (c : Nat) :
    d.back c = (channelView d c).1.getD (channelView d c).2.toNat 0 := rfl

/-- Claim C10: channel noninterference. For any two push histories whose
restrictions to channel c coincide, `back c` agrees after replaying either
history: the values channel c yields depend only on channel c's own push
history, so changing what is pushed into other channels never leaks into
channel c. -/
theorem back_noninterference (d : MultichannelDelayLine)
    (h1 h2 : List (Sample × Nat)) (c : Nat)
    (hf : h1.filter (fun p => p.2 == c) = h2.filter (fun p => p.2 == c)) :
    (replay d h1).back c = (replay d h2).back c := by
  rw [back_eq_channelView, back_eq_channelView, channelView_replay,
    channelView_replay, hf]

/-- Witness for C10: pushing 5 into channel 1 versus pushing 9 and 7 into
channel 1 leaves channel 0's `back` value unchanged. -/
theorem back_noninterference_witness :
    ([((1 : Sample), 0), (5, 1)].filter (fun p => p.2 == 0)
       = [((1 : Sample), 0), (9, 1), (7, 1)].filter (fun p => p.2 == 0)) ∧
    (replay (init 3 2) [(1, 0), (5, 1)]).back 0
      = (replay (init 3 2) [(1, 0), (9, 1), (7, 1)]).back 0 :=
  ⟨by decide,
   back_noninterference (init 3 2) [(1, 0), (5, 1)] [(1, 0), (9, 1), (7, 1)] 0
     (by decide)⟩

end JB
